import Mathlib

/-!
# Verification of the expense-tracking chat bot (src/project1/main.py)

A shallow embedding of the bot in Lean 4. Message text is modelled as
`List Char`; chat identifiers as `String`; monetary amounts as exact
rationals `ℚ` (the Python code uses floating point, but every claim here
is about exact decimal inputs, sums and comparisons, which the rational
model captures; non-finite float inputs such as inf and nan are outside
the model). The current calendar date is passed as an explicit `today`
argument, standing for `datetime.now().strftime` in the code.

The transport layer (the telebot library) is modelled by its contract:
per-chat message handlers are dispatched in registration order, and
`register_next_step_handler` installs a one-shot continuation for the
next message from that chat which takes priority over the ordinary
handlers and is removed before the continuation runs.
-/

/-- Message text, the Python `str` payload of an inbound message. -/
abbrev Str := List Char

/-- Python whitespace test used by `str.strip`, restricted to the ASCII
whitespace characters. -/
def isSpace (c : Char) : Bool :=
  c = ' ' || c = '\t' || c = '\n' || c = '\r' || c = '\x0b' || c = '\x0c'

/-- Python `str.strip()`: drop whitespace from both ends. -/
def strip (s : Str) : Str :=
  ((s.dropWhile isSpace).reverse.dropWhile isSpace).reverse

/-- Split a character list at the first character satisfying `p`,
returning the parts before and after it, or `none` when no character
satisfies `p`. -/
def splitFirstOn (p : Char → Bool) : Str → Option (Str × Str)
  | [] => none
  | c :: rest =>
    if p c then some ([], rest)
    else (splitFirstOn p rest).map (fun ab => (c :: ab.1, ab.2))

/-- Python `text.split(",")`: split at every comma. The empty text gives
one (empty) part, matching Python. -/
def splitOnComma : Str → List Str
  | [] => [[]]
  | c :: rest =>
    if c = ',' then [] :: splitOnComma rest
    else
      match splitOnComma rest with
      | [] => [[c]]
      | p :: ps => (c :: p) :: ps

/-- Numeric value of a digit list, most significant first. -/
def digitsVal (s : Str) : ℕ :=
  s.foldl (fun a c => 10 * a + (c.toNat - 48)) 0

/-- Exponent part of a Python float literal: optional sign followed by at
least one digit. -/
def parseExpDigits (s : Str) : Option ℤ :=
  match s with
  | [] => none
  | c :: rest =>
    if c = '+' then
      if rest ≠ [] ∧ rest.all Char.isDigit then some (digitsVal rest) else none
    else if c = '-' then
      if rest ≠ [] ∧ rest.all Char.isDigit then some (-(digitsVal rest : ℤ)) else none
    else
      if (c :: rest).all Char.isDigit then some (digitsVal (c :: rest)) else none

/-- Mantissa of a Python float literal: digits with an optional decimal
point, at least one digit in total (`"1."`, `".5"`, `"15"` are accepted;
`"."` and `""` are not). -/
def parseMantissa (s : Str) : Option ℚ :=
  match splitFirstOn (fun c => c = '.') s with
  | none =>
    if s ≠ [] ∧ s.all Char.isDigit then some (digitsVal s : ℚ) else none
  | some (i, f) =>
    if (i ≠ [] ∨ f ≠ []) ∧ i.all Char.isDigit ∧ f.all Char.isDigit then
      some ((digitsVal i : ℚ) + (digitsVal f : ℚ) / (10 : ℚ) ^ f.length)
    else none

/-- Unsigned Python float literal: mantissa with an optional exponent
split at the first `e` or `E`. -/
def parseUnsignedFloat (s : Str) : Option ℚ :=
  match splitFirstOn (fun c => c = 'e' || c = 'E') s with
  | none => parseMantissa s
  | some (m, e) =>
    match parseMantissa m, parseExpDigits e with
    | some mv, some ev => some (mv * (10 : ℚ) ^ ev)
    | _, _ => none

/-- Model of Python `float(s)` on already-stripped text: optional sign
followed by a finite decimal literal. Evaluates to an exact rational;
the inf and nan spellings are not modelled. -/
def parseFloat (s : Str) : Option ℚ :=
  match s with
  | [] => parseUnsignedFloat []
  | c :: rest =>
    if c = '+' then parseUnsignedFloat rest
    else if c = '-' then (parseUnsignedFloat rest).map Neg.neg
    else parseUnsignedFloat (c :: rest)

/-- Model of Python `int(s)` on already-stripped text: optional sign
followed by at least one digit. -/
def parseInt (s : Str) : Option ℤ :=
  match s with
  | [] => none
  | c :: rest =>
    if c = '+' then
      if rest ≠ [] ∧ rest.all Char.isDigit then some (digitsVal rest) else none
    else if c = '-' then
      if rest ≠ [] ∧ rest.all Char.isDigit then some (-(digitsVal rest : ℤ)) else none
    else
      if (c :: rest).all Char.isDigit then some (digitsVal (c :: rest)) else none

/-- The expense-input parse performed by `process_expense` in the code:
`category, amount = text.split(",")` (which raises unless the split has
exactly two parts, i.e. the text has exactly one comma), then
`category.strip()` and `float(amount.strip())`. -/
def parseExpenseInput (s : Str) : Option (Str × ℚ) :=
  match splitOnComma s with
  | [cat, amt] =>
    match parseFloat (strip amt) with
    | some q => some (strip cat, q)
    | none => none
  | _ => none

/-- Reference parse written from the words of the spec: split the input
at the first comma only into exactly two parts, category is the left
part stripped, amount is the right part stripped and parsed as a
decimal number; fail when there is no comma or the amount does not
parse. Used only to compare with `parseExpenseInput`. -/
def parseExpenseInputSpec (s : Str) : Option (Str × ℚ) :=
  match splitFirstOn (fun c => c = ',') s with
  | some (cat, amt) =>
    match parseFloat (strip amt) with
    | some q => some (strip cat, q)
    | none => none
  | none => none

/-! ## Data model (the JSON record store) -/

/-- The pending-input marker stored in the `state` field of a user
record: the code stores `None`, `"add_expense"`, `"set_daily_limit"` or
`"delete_expense"`; `none` (IDLE) is modelled by `Option.none` around
this type. -/
inductive UState where
  | add_expense
  | set_daily_limit
  | delete_expense
deriving DecidableEq, Repr

/-- One logged expense, the dict `{category, amount, date}` built by
`process_expense`. -/
structure Expense where
  category : Str
  amount : ℚ
  date : Str
deriving DecidableEq, Repr

/-- One user record, the dict `{expenses, daily_limit, state}` created
by `set_user_state`. -/
structure UserRec where
  expenses : List Expense
  daily_limit : ℚ
  state : Option UState
deriving DecidableEq, Repr

instance : Inhabited UserRec := ⟨⟨[], 0, none⟩⟩

/-- The in-memory user map `self.users`, keyed by the stringified chat
id; `none` means the key is absent from the dict. -/
def Store := String → Option UserRec

/-- The messages the bot sends, modelled structurally (each constructor
stands for one `bot.send_message` call site in the code, carrying the
data interpolated into the text). -/
inductive Msg where
  /-- Welcome text plus the four-button main menu. -/
  | welcome
  /-- Prompt to enter an expense as category, amount. -/
  | promptExpense
  /-- Prompt to enter the daily budget. -/
  | promptLimit
  /-- Listing of expenses followed by a prompt for the index to delete. -/
  | promptDelete (items : List Expense)
  /-- Listing of all expenses with 1-based indices. -/
  | viewList (items : List Expense)
  /-- The no-expenses-yet reply of the view handler. -/
  | viewEmpty
  /-- The nothing-to-delete reply of the delete handler. -/
  | deleteEmpty
  /-- Success reply after an expense is added. -/
  | expenseAdded
  /-- Format-error reply of `process_expense`. -/
  | formatError
  /-- Confirmation that the daily budget was set to the given value. -/
  | limitSet (value : ℚ)
  /-- Error reply of `process_daily_limit` for non-numeric input. -/
  | limitError
  /-- Reply naming the deleted expense. -/
  | deleted (category : Str) (amount : ℚ)
  /-- Error reply of `process_delete_expense` for an out-of-range index. -/
  | invalidNumber
  /-- Error reply of `process_delete_expense` for non-integer input. -/
  | enterNumber
  /-- Daily-limit warning carrying the limit and the spent sum. -/
  | warning (limit spent : ℚ)
deriving DecidableEq, Repr

/-- Whether a message is the daily-limit warning. -/
def isWarning : Msg → Bool
  | .warning _ _ => true
  | _ => false

/-! ## Record Store operations -/

/-- `set_user_state`: create the record if absent (with empty expenses
and zero limit), then set its `state` field. The immediate
`save_user_data` call is a no-op in the in-memory model. -/
def set_user_state (users : Store) (uid : String) (st : Option UState) : Store :=
  fun k =>
    if k = uid then
      some { ((users uid).getD default) with state := st }
    else users k

/-- `get_user_state`: the state of a known user, `none` otherwise
(`self.users.get(str(chat_id), {}).get("state")`). -/
def get_user_state (users : Store) (uid : String) : Option UState :=
  ((users uid).getD default).state

/-- Point update of the user map, `self.users[chat_id] = u`. -/
def storeSet (users : Store) (uid : String) (u : UserRec) : Store :=
  fun k => if k = uid then some u else users k

/-! ## Conversation Handler -/

/-- Sum of the amounts of the expenses dated `today`, as computed by
`check_daily_limit`. -/
def dailySum (expenses : List Expense) (today : Str) : ℚ :=
  ((expenses.filter (fun e => e.date = today)).map Expense.amount).sum

/-- `check_daily_limit`: warn when a positive daily limit is strictly
exceeded by the sum of the expenses dated today. Returns the sent
messages. Callers guarantee the record exists; `default` stands for the
KeyError the code would otherwise raise. -/
def check_daily_limit (users : Store) (uid : String) (today : Str) : List Msg :=
  let u := (users uid).getD default
  let daily_expenses := dailySum u.expenses today
  let daily_limit := u.daily_limit
  if 0 < daily_limit ∧ daily_limit < daily_expenses then
    [.warning daily_limit daily_expenses]
  else []

/-- `process_expense`: parse `category, amount`, append the expense
dated today, persist, run the limit check, reply success and go idle;
on a parse failure reply the format error and change nothing. Returns
the new map and the sent messages in order. -/
def process_expense (users : Store) (uid : String) (text today : Str) :
    Store × List Msg :=
  match parseExpenseInput text with
  | some (category, amount) =>
    let u := (users uid).getD default
    let u' := { u with
      expenses := u.expenses ++ [⟨category, amount, today⟩] }
    let users1 := storeSet users uid u'
    let warn := check_daily_limit users1 uid today
    (set_user_state users1 uid none, warn ++ [.expenseAdded])
  | none => (users, [.formatError])

/-- `process_daily_limit`: parse the stripped text as a number, store it
as the daily limit, confirm and go idle; on failure reply the error and
change nothing. -/
def process_daily_limit (users : Store) (uid : String) (text : Str) :
    Store × List Msg :=
  match parseFloat (strip text) with
  | some q =>
    let u := (users uid).getD default
    let users1 := storeSet users uid { u with daily_limit := q }
    (set_user_state users1 uid none, [.limitSet q])
  | none => (users, [.limitError])

/-- `process_delete_expense`: parse the stripped text as an integer,
subtract one, and when the result indexes the expense list pop that
expense, reply with it and go idle; otherwise reply the matching error
and change nothing. -/
def process_delete_expense (users : Store) (uid : String) (text : Str) :
    Store × List Msg :=
  match parseInt (strip text) with
  | some n =>
    let u := (users uid).getD default
    let index : ℤ := n - 1
    if h : 0 ≤ index ∧ index < (u.expenses.length : ℤ) then
      let i : ℕ := index.toNat
      let deleted := u.expenses.get ⟨i, by omega⟩
      let users1 := storeSet users uid
        { u with expenses := u.expenses.eraseIdx i }
      (set_user_state users1 uid none,
        [.deleted deleted.category deleted.amount])
    else (users, [.invalidNumber])
  | none => (users, [.enterNumber])

/-! ## Transport dispatch

The code wires its handlers through the bot library: `send_welcome`
matches the `/start` command, four lambda-guarded handlers match the
exact button texts, and the three `process_*` methods are installed as
one-shot next-step continuations by `register_next_step_handler`. The
library delivers each inbound message first to the pending continuation
of that chat, removing it, and only otherwise to the ordinary handlers
in registration order. -/

/-- A pending next-step continuation, as registered by
`register_next_step_handler`. -/
inductive NextStep where
  | expense
  | limit
  | delete
deriving DecidableEq, Repr

/-- The full conversation configuration: the user map plus the per-chat
pending continuation of the bot library. -/
structure Config where
  users : Store
  pending : String → Option NextStep

/-- The `/start` command text. -/
def startCmd : Str := "/start".toList

/-- Button text of the add-expense handler. -/
def btnAdd : Str := "Добавить расход".toList

/-- Button text of the set-daily-budget handler. -/
def btnLimit : Str := "Установить бюджет на день".toList

/-- Button text of the view-expenses handler. -/
def btnView : Str := "Просмотр расходов".toList

/-- Button text of the delete-expense handler. -/
def btnDelete : Str := "Удалить расход".toList

/-- Clear the pending continuation of one chat. -/
def clearPending (p : String → Option NextStep) (uid : String) :
    String → Option NextStep :=
  fun k => if k = uid then none else p k

/-- Install a pending continuation for one chat. -/
def setPending (p : String → Option NextStep) (uid : String) (c : NextStep) :
    String → Option NextStep :=
  fun k => if k = uid then some c else p k

/-- `send_welcome`: reset the state to idle and send the welcome text
with the main menu. -/
def send_welcome (users : Store) (uid : String) : Store × List Msg :=
  (set_user_state users uid none, [.welcome])

/-- The `add_expense` button handler: remember the pending prompt in the
record, send the prompt and register `process_expense` for the next
message. -/
def add_expense (users : Store) (uid : String) : Store × List Msg × Option NextStep :=
  (set_user_state users uid (some .add_expense), [.promptExpense], some .expense)

/-- The `set_daily_limit` button handler. -/
def set_daily_limit (users : Store) (uid : String) : Store × List Msg × Option NextStep :=
  (set_user_state users uid (some .set_daily_limit), [.promptLimit], some .limit)

/-- The `view_expenses` button handler: reset the state, then list the
expenses or report that none exist. Registers no continuation. -/
def view_expenses (users : Store) (uid : String) : Store × List Msg :=
  let users1 := set_user_state users uid none
  let expenses := ((users1 uid).getD default).expenses
  if expenses = [] then (users1, [.viewEmpty])
  else (users1, [.viewList expenses])

/-- The `delete_expense` button handler: remember the pending prompt,
then either report that nothing can be deleted (registering no
continuation) or list the expenses, prompt for an index and register
`process_delete_expense` for the next message. -/
def delete_expense (users : Store) (uid : String) : Store × List Msg × Option NextStep :=
  let users1 := set_user_state users uid (some .delete_expense)
  let expenses := ((users1 uid).getD default).expenses
  if expenses = [] then (users1, [.deleteEmpty], none)
  else (users1, [.promptDelete expenses], some .delete)

/-- One inbound message handled to completion: the pending continuation
of the chat, if any, consumes the message (and is removed first);
otherwise the message is matched against the command and button
handlers in registration order, and a text matching none of them is
dropped. Returns the new configuration and the sent messages. -/
def handle_message (cfg : Config) (uid : String) (text today : Str) :
    Config × List Msg :=
  match cfg.pending uid with
  | some c =>
    let p := clearPending cfg.pending uid
    match c with
    | .expense =>
      let r := process_expense cfg.users uid text today
      (⟨r.1, p⟩, r.2)
    | .limit =>
      let r := process_daily_limit cfg.users uid text
      (⟨r.1, p⟩, r.2)
    | .delete =>
      let r := process_delete_expense cfg.users uid text
      (⟨r.1, p⟩, r.2)
  | none =>
    if text = startCmd then
      let r := send_welcome cfg.users uid
      (⟨r.1, cfg.pending⟩, r.2)
    else if text = btnAdd then
      let r := add_expense cfg.users uid
      (⟨r.1, match r.2.2 with
             | some c => setPending cfg.pending uid c
             | none => cfg.pending⟩, r.2.1)
    else if text = btnView then
      let r := view_expenses cfg.users uid
      (⟨r.1, cfg.pending⟩, r.2)
    else if text = btnLimit then
      let r := set_daily_limit cfg.users uid
      (⟨r.1, match r.2.2 with
             | some c => setPending cfg.pending uid c
             | none => cfg.pending⟩, r.2.1)
    else if text = btnDelete then
      let r := delete_expense cfg.users uid
      (⟨r.1, match r.2.2 with
             | some c => setPending cfg.pending uid c
             | none => cfg.pending⟩, r.2.1)
    else (cfg, [])

/-! ## Parser lemmas -/

/-- Splitting at the first matching character decomposes the input: the
left part is match-free, the split character matches. -/
theorem splitFirstOn_eq_some {p : Char → Bool} {s a b : Str}
    (h : splitFirstOn p s = some (a, b)) :
    ∃ c, p c = true ∧ s = a ++ c :: b ∧ ∀ x ∈ a, p x = false := by
  induction s generalizing a b with
  | nil => simp [splitFirstOn] at h
  | cons x xs ih =>
    rw [splitFirstOn] at h
    by_cases hx : p x
    · simp only [hx, if_true, Option.some.injEq, Prod.mk.injEq] at h
      exact ⟨x, hx, by simp [← h.1, ← h.2], by simp [← h.1]⟩
    · cases hsplit : splitFirstOn p xs with
      | none => rw [hsplit] at h; simp [hx] at h
      | some ab =>
        obtain ⟨a', b'⟩ := ab
        rw [hsplit] at h
        simp only [hx, if_false, Option.map_some', Option.some.injEq,
          Prod.mk.injEq, Bool.false_eq_true] at h
        obtain ⟨ha, hb⟩ := h
        obtain ⟨c, hc, hs, hfree⟩ := ih hsplit
        refine ⟨c, hc, by simp [← ha, ← hb, hs], ?_⟩
        intro y hy
        rcases (by simpa [← ha] using hy : y = x ∨ y ∈ a') with rfl | hy'
        · simpa using hx
        · exact hfree y hy'

/-- When no character matches, the first-split fails on no character. -/
theorem splitFirstOn_eq_none {p : Char → Bool} {s : Str}
    (h : splitFirstOn p s = none) : ∀ c ∈ s, p c = false := by
  induction s with
  | nil => simp
  | cons x xs ih =>
    rw [splitFirstOn] at h
    by_cases hx : p x
    · simp [hx] at h
    · intro c hc
      rcases (by simpa using hc : c = x ∨ c ∈ xs) with rfl | hc'
      · simpa using hx
      · exact ih (by simpa [hx, Option.map_eq_none'] using h) c hc'

/-- Splitting at every comma never produces an empty list of parts. -/
theorem splitOnComma_ne_nil (s : Str) : splitOnComma s ≠ [] := by
  cases s with
  | nil => simp [splitOnComma]
  | cons x xs =>
    rw [splitOnComma]
    by_cases hx : x = ','
    · simp [hx]
    · simp only [hx, if_false]
      cases splitOnComma xs <;> simp

/-- A comma-free text is one single part. -/
theorem splitOnComma_of_not_mem {s : Str} (h : ',' ∉ s) :
    splitOnComma s = [s] := by
  induction s with
  | nil => rfl
  | cons x xs ih =>
    rw [splitOnComma]
    have hx : ¬ x = ',' := fun hc => h (hc ▸ List.mem_cons_self x xs)
    rw [ih (fun hc => h (List.mem_cons_of_mem x hc))]
    simp [hx]

/-- Splitting at every comma peels off the part before the first comma. -/
theorem splitOnComma_append {a b : Str} (h : ',' ∉ a) :
    splitOnComma (a ++ ',' :: b) = a :: splitOnComma b := by
  induction a with
  | nil => simp [splitOnComma]
  | cons x xs ih =>
    have hx : ¬ x = ',' := fun hc => h (hc ▸ List.mem_cons_self x xs)
    rw [List.cons_append, splitOnComma, ih (fun hc => h (List.mem_cons_of_mem x hc))]
    simp [hx]

/-- A character that the test rejects survives `List.dropWhile`. -/
theorem mem_dropWhile_of_mem {p : Char → Bool} {s : Str} {c : Char}
    (hc : c ∈ s) (hp : p c = false) : c ∈ s.dropWhile p := by
  induction s with
  | nil => simp at hc
  | cons x xs ih =>
    rw [List.dropWhile]
    by_cases hx : p x
    · rcases (by simpa using hc : c = x ∨ c ∈ xs) with rfl | hc'
      · rw [hp] at hx; simp at hx
      · simpa [hx] using ih hc'
    · simpa [hx] using hc

/-- Stripping whitespace keeps every comma. -/
theorem mem_strip_of_comma {s : Str} (h : ',' ∈ s) : ',' ∈ strip s := by
  have hsp : isSpace ',' = false := by decide
  rw [strip]
  exact List.mem_reverse.mpr (mem_dropWhile_of_mem
    (List.mem_reverse.mpr (mem_dropWhile_of_mem h hsp)) hsp)

/-- A list holding a comma is not all digits. -/
theorem all_isDigit_false_of_comma {s : Str} (h : ',' ∈ s) :
    s.all Char.isDigit = false := by
  rcases hall : s.all Char.isDigit with _ | _
  · rfl
  · have := List.all_eq_true.mp hall ',' h
    simp at this

/-- An exponent part holding a comma does not parse. -/
theorem parseExpDigits_comma {s : Str} (h : ',' ∈ s) :
    parseExpDigits s = none := by
  cases s with
  | nil => simp at h
  | cons c rest =>
    rw [parseExpDigits]
    by_cases hp : c = '+'
    · subst hp
      have hr : ',' ∈ rest := by simpa using h
      simp [all_isDigit_false_of_comma hr]
    · by_cases hm : c = '-'
      · subst hm
        have hr : ',' ∈ rest := by simpa using h
        simp [hp, all_isDigit_false_of_comma hr]
      · simp [hp, hm, all_isDigit_false_of_comma h]

/-- A mantissa holding a comma does not parse. -/
theorem parseMantissa_comma {s : Str} (h : ',' ∈ s) :
    parseMantissa s = none := by
  rw [parseMantissa]
  cases hd : splitFirstOn (fun c => c = '.') s with
  | none => simp [all_isDigit_false_of_comma h]
  | some ab =>
    obtain ⟨i, f⟩ := ab
    obtain ⟨c, hc, hs, -⟩ := splitFirstOn_eq_some hd
    have hc' : c = '.' := by simpa using hc
    subst hc'
    rcases (by simpa [hs] using h : ',' ∈ i ∨ ',' = '.' ∨ ',' ∈ f) with hi | hdot | hf
    · simp [all_isDigit_false_of_comma hi]
    · simp at hdot
    · simp [all_isDigit_false_of_comma hf]

/-- An unsigned float holding a comma does not parse. -/
theorem parseUnsignedFloat_comma {s : Str} (h : ',' ∈ s) :
    parseUnsignedFloat s = none := by
  cases he : splitFirstOn (fun c => c = 'e' || c = 'E') s with
  | none => simpa [parseUnsignedFloat, he] using parseMantissa_comma h
  | some ab =>
    obtain ⟨m, e⟩ := ab
    obtain ⟨c, hc, hs, -⟩ := splitFirstOn_eq_some he
    have hcomma : ¬ (',' = c) := by rintro rfl; simp at hc
    rcases (by simpa [hs, hcomma] using h : ',' ∈ m ∨ ',' ∈ e) with hm | he'
    · simp [parseUnsignedFloat, he, parseMantissa_comma hm]
    · cases hm2 : parseMantissa m <;>
        simp [parseUnsignedFloat, he, hm2, parseExpDigits_comma he']

/-- The float parse rejects every text holding a comma. -/
theorem parseFloat_comma {s : Str} (h : ',' ∈ s) :
    parseFloat s = none := by
  cases s with
  | nil => simp at h
  | cons c rest =>
    rw [parseFloat]
    by_cases hp : c = '+'
    · subst hp
      simp [parseUnsignedFloat_comma (show ',' ∈ rest by simpa using h)]
    · by_cases hm : c = '-'
      · subst hm
        simp [hp, parseUnsignedFloat_comma (show ',' ∈ rest by simpa using h)]
      · simp [hp, hm, parseUnsignedFloat_comma h]

/-- The expense-input parse of the code agrees with the
split-at-the-first-comma-only reference definition on every input: a
float literal can never hold a comma, so any input with two or more
commas is rejected by both. -/
theorem parseExpense_agree (s : Str) :
    parseExpenseInput s = parseExpenseInputSpec s := by
  cases h : splitFirstOn (fun c => c = ',') s with
  | none =>
    have hnc : ',' ∉ s := fun hmem => by
      have := splitFirstOn_eq_none h ',' hmem
      simp at this
    rw [parseExpenseInput, parseExpenseInputSpec, h,
      splitOnComma_of_not_mem hnc]
  | some ab =>
    obtain ⟨a, b⟩ := ab
    obtain ⟨c, hc, hs, hfree⟩ := splitFirstOn_eq_some h
    have hc' : c = ',' := by simpa using hc
    subst hc'
    have hna : ',' ∉ a := fun hmem => by
      have := hfree ',' hmem
      simp at this
    subst hs
    cases hb : splitFirstOn (fun c => c = ',') b with
    | none =>
      have hnb : ',' ∉ b := fun hmem => by
        have := splitFirstOn_eq_none hb ',' hmem
        simp at this
      rw [parseExpenseInput, parseExpenseInputSpec, h,
        splitOnComma_append hna, splitOnComma_of_not_mem hnb]
    | some ab2 =>
      obtain ⟨b1, b2⟩ := ab2
      obtain ⟨c2, hc2, hbs, hfree2⟩ := splitFirstOn_eq_some hb
      have hc2' : c2 = ',' := by simpa using hc2
      subst hc2'
      have hnb1 : ',' ∉ b1 := fun hmem => by
        have := hfree2 ',' hmem
        simp at this
      have hcb : ',' ∈ b := by simp [hbs]
      have hone : parseFloat (strip b) = none :=
        parseFloat_comma (mem_strip_of_comma hcb)
      have h2 : splitOnComma b = b1 :: splitOnComma b2 := by
        rw [hbs]; exact splitOnComma_append hnb1
      obtain ⟨z, zs, hz⟩ :
          ∃ z zs, splitOnComma b2 = z :: zs := by
        cases hsb : splitOnComma b2 with
        | nil => exact absurd hsb (splitOnComma_ne_nil b2)
        | cons z zs => exact ⟨z, zs, rfl⟩
      rw [parseExpenseInput, parseExpenseInputSpec, h,
        splitOnComma_append hna, h2, hz]
      simp [hone]

/-! ## Claim theorems -/

/-- C9: for every input string, the parse outcome of `process_expense`
(split at every comma into exactly two parts, strip, parse the amount)
equals the outcome of the reference definition that splits at the first
comma only. -/
theorem parseExpenseInput_eq_spec (s : Str) :
    parseExpenseInput s = parseExpenseInputSpec s :=
  parseExpense_agree s

/-- C10: `set_user_state` modifies only the state field of the
addressed user: every other key of the map is untouched, an existing
record keeps its expenses and daily limit, and an absent record is
created with empty expenses, zero limit and the given state. -/
theorem set_user_state_frame (users : Store) (uid : String)
    (st : Option UState) :
    (∀ k, k ≠ uid → set_user_state users uid st k = users k) ∧
    (∀ u, users uid = some u →
      set_user_state users uid st uid = some { u with state := st }) ∧
    (users uid = none →
      set_user_state users uid st uid = some ⟨[], 0, st⟩) := by
  refine ⟨fun k hk => ?_, fun u hu => ?_, fun hu => ?_⟩ <;>
    simp [set_user_state, *] <;>
    exact ⟨rfl, rfl⟩

/-- C1: a user awaiting expense input who sends `category, amount` with
a numeric amount gets exactly that expense appended at the end of the
list — category stripped, amount parsed, date today — the count grows
by one, and the stored state returns to idle. -/
theorem await_expense_valid_input_appends (cfg : Config) (uid : String)
    (text today : Str) (u : UserRec) (cat amt : Str) (q : ℚ)
    (hu : cfg.users uid = some u)
    (hstate : u.state = some UState.add_expense)
    (hpend : cfg.pending uid = some NextStep.expense)
    (hsplit : splitOnComma text = [cat, amt])
    (hamt : parseFloat (strip amt) = some q) :
    (handle_message cfg uid text today).1.users uid =
      some ⟨u.expenses ++ [⟨strip cat, q, today⟩], u.daily_limit, none⟩ ∧
    ((handle_message cfg uid text today).1.users uid).map
      (fun r => r.expenses.length) = some (u.expenses.length + 1) := by
  have hparse : parseExpenseInput text = some (strip cat, q) := by
    simp [parseExpenseInput, hsplit, hamt]
  simp [handle_message, hpend, process_expense, hparse, set_user_state,
    storeSet, hu]

/-- C4: a user awaiting expense input who sends text whose parse fails
(no single comma, or a non-numeric amount) leaves the whole store
untouched, keeps the stored state awaiting expense input, and receives
the format-error reply. The failure condition is phrased through the
reference parse: no comma, or the amount part does not parse. -/
theorem await_expense_malformed_unchanged (cfg : Config) (uid : String)
    (text today : Str) (u : UserRec)
    (hu : cfg.users uid = some u)
    (hstate : u.state = some UState.add_expense)
    (hpend : cfg.pending uid = some NextStep.expense)
    (hbad : parseExpenseInputSpec text = none) :
    (handle_message cfg uid text today).1.users = cfg.users ∧
    (handle_message cfg uid text today).2 = [Msg.formatError] ∧
    ((handle_message cfg uid text today).1.users uid).map UserRec.state =
      some (some UState.add_expense) := by
  have hbad' : parseExpenseInput text = none :=
    (parseExpense_agree text).trans hbad
  simp [handle_message, hpend, process_expense, hbad', hu, hstate]

/-- C3: a user awaiting a delete index who sends an integer `i` with
`1 ≤ i ≤ count` has exactly the `i`-th expense (1-based, display order)
removed, keeping the relative order of the rest; the count drops by
one, the reply names the deleted category and amount, and the stored
state returns to idle. -/
theorem await_delete_valid_index_removes (cfg : Config) (uid : String)
    (text today : Str) (u : UserRec) (i : ℤ)
    (hu : cfg.users uid = some u)
    (hstate : u.state = some UState.delete_expense)
    (hpend : cfg.pending uid = some NextStep.delete)
    (hint : parseInt (strip text) = some i)
    (hlo : 1 ≤ i) (hhi : i ≤ (u.expenses.length : ℤ)) :
    ∃ d, u.expenses[i.toNat - 1]? = some d ∧
      (handle_message cfg uid text today).1.users uid =
        some ⟨u.expenses.take (i.toNat - 1) ++ u.expenses.drop i.toNat,
              u.daily_limit, none⟩ ∧
      (handle_message cfg uid text today).2 =
        [Msg.deleted d.category d.amount] ∧
      ((handle_message cfg uid text today).1.users uid).map
        (fun r => r.expenses.length) = some (u.expenses.length - 1) := by
  have hbound : (i - 1).toNat < u.expenses.length := by omega
  have hnat : (i - 1).toNat = i.toNat - 1 := by omega
  have hsucc : (i - 1).toNat + 1 = i.toNat := by omega
  refine ⟨u.expenses.get ⟨(i - 1).toNat, hbound⟩, ?_, ?_, ?_, ?_⟩
  · rw [← hnat]
    simp [List.getElem?_eq_getElem hbound]
  · have h2 : i.toNat - 1 + 1 = i.toNat := by omega
    simp only [handle_message, hpend, process_delete_expense, hint, hu,
      Option.getD_some]
    rw [dif_pos ⟨by omega, by omega⟩]
    simp [set_user_state, storeSet, List.eraseIdx_eq_take_drop_succ,
      hnat, hsucc, h2]
  · simp only [handle_message, hpend, process_delete_expense, hint, hu,
      Option.getD_some]
    rw [dif_pos ⟨by omega, by omega⟩]
    simp [hu]
  · have hlen : (u.expenses.eraseIdx (i.toNat - 1)).length + 1 =
        u.expenses.length := List.length_eraseIdx_add_one (by omega)
    simp only [handle_message, hpend, process_delete_expense, hint, hu,
      Option.getD_some]
    rw [dif_pos ⟨by omega, by omega⟩]
    simp [set_user_state, storeSet, hnat]
    omega

/-- C5: a user awaiting a delete index who sends an out-of-range
integer, or text that is no integer at all, leaves the whole store
untouched, keeps the stored state awaiting the index, and gets the
matching error reply: enter-a-number for a non-integer, invalid-number
for an out-of-range one. -/
theorem await_delete_bad_input_unchanged (cfg : Config) (uid : String)
    (text today : Str) (u : UserRec)
    (hu : cfg.users uid = some u)
    (hstate : u.state = some UState.delete_expense)
    (hpend : cfg.pending uid = some NextStep.delete) :
    (parseInt (strip text) = none →
      (handle_message cfg uid text today).1.users = cfg.users ∧
      (handle_message cfg uid text today).2 = [Msg.enterNumber] ∧
      ((handle_message cfg uid text today).1.users uid).map UserRec.state =
        some (some UState.delete_expense)) ∧
    (∀ i : ℤ, parseInt (strip text) = some i →
      (i < 1 ∨ (u.expenses.length : ℤ) < i) →
      (handle_message cfg uid text today).1.users = cfg.users ∧
      (handle_message cfg uid text today).2 = [Msg.invalidNumber] ∧
      ((handle_message cfg uid text today).1.users uid).map UserRec.state =
        some (some UState.delete_expense)) := by
  constructor
  · intro hnone
    simp [handle_message, hpend, process_delete_expense, hnone, hu, hstate]
  · intro i hint hout
    have hcond : ¬ (0 ≤ i - 1 ∧ i - 1 < (u.expenses.length : ℤ)) := by omega
    simp only [handle_message, hpend, process_delete_expense, hint, hu,
      Option.getD_some]
    rw [dif_neg hcond]
    simp [hstate, hu]

/-- C2: after a successful expense insertion the limit check runs once:
exactly one warning, carrying the limit and the spent sum (including
the new expense), is sent when the positive daily limit is strictly
exceeded, and none otherwise; and no dispatch other than a successful
insertion ever sends a warning. -/
theorem warning_exactly_on_qualifying_insertion (cfg : Config)
    (uid : String) (text today : Str) :
    (∀ u c q, cfg.users uid = some u →
      cfg.pending uid = some NextStep.expense →
      parseExpenseInput text = some (c, q) →
      (handle_message cfg uid text today).2.filter isWarning =
        (if 0 < u.daily_limit ∧ u.daily_limit <
            dailySum (u.expenses ++ [⟨c, q, today⟩]) today
         then [Msg.warning u.daily_limit
                (dailySum (u.expenses ++ [⟨c, q, today⟩]) today)]
         else [])) ∧
    ((cfg.pending uid = some NextStep.expense →
        parseExpenseInput text = none) →
      (handle_message cfg uid text today).2.filter isWarning = []) := by
  constructor
  · intro u c q hu hpend hparse
    have key : (handle_message cfg uid text today).2 =
        (if 0 < u.daily_limit ∧ u.daily_limit <
            dailySum (u.expenses ++ [⟨c, q, today⟩]) today
         then [Msg.warning u.daily_limit
                (dailySum (u.expenses ++ [⟨c, q, today⟩]) today)]
         else []) ++ [Msg.expenseAdded] := by
      simp [handle_message, hpend, process_expense, hparse,
        check_daily_limit, storeSet, set_user_state, hu]
    rw [key]
    split_ifs <;> simp [isWarning]
  · intro himp
    cases hp : cfg.pending uid with
    | none =>
      simp only [handle_message, hp, send_welcome, add_expense,
        view_expenses, set_daily_limit, delete_expense, set_user_state]
      split_ifs <;> simp [isWarning]
    | some c =>
      cases c with
      | expense =>
        have hnone := himp hp
        simp [handle_message, hp, process_expense, hnone, isWarning]
      | limit =>
        cases hq : parseFloat (strip text) <;>
          simp [handle_message, hp, process_daily_limit, hq, isWarning]
      | delete =>
        cases hn : parseInt (strip text) with
        | none =>
          simp [handle_message, hp, process_delete_expense, hn, isWarning]
        | some i =>
          simp only [handle_message, hp, process_delete_expense, hn]
          split_ifs <;> simp [isWarning]

/-- C6 amended: `/start` sends the welcome message and resets the
stored state to idle whenever no next-step continuation is pending for
that chat (in particular from every idle configuration); the pending
map is untouched. -/
theorem start_welcomes_without_pending (cfg : Config) (uid : String)
    (today : Str) (hpend : cfg.pending uid = none) :
    (handle_message cfg uid startCmd today).2 = [Msg.welcome] ∧
    ((handle_message cfg uid startCmd today).1.users uid).map
      UserRec.state = some none ∧
    (handle_message cfg uid startCmd today).1.pending = cfg.pending := by
  simp [handle_message, hpend, send_welcome, set_user_state]

/-- A user record parked in the awaiting-expense state, with the
matching continuation registered, used as a concrete configuration. -/
def stuckUser : UserRec := ⟨[], 0, some UState.add_expense⟩

/-- A one-user store holding `stuckUser` under chat id 42. -/
def stuckStore : Store := fun k => if k = "42" then some stuckUser else none

/-- The configuration right after the add-expense button was pressed:
state awaiting expense input and `process_expense` registered for the
next message. -/
def stuckCfg : Config :=
  ⟨stuckStore, fun k => if k = "42" then some NextStep.expense else none⟩

/-- C6 counterexample: in the awaiting-expense conversation state the
message `/start` is consumed by the pending `process_expense`
continuation — the reply is the format error, not the welcome, and the
state stays awaiting expense input. -/
theorem start_during_pending_parser_counterexample :
    (handle_message stuckCfg "42" startCmd ['d']).2 = [Msg.formatError] ∧
    ((handle_message stuckCfg "42" startCmd ['d']).1.users "42").map
      UserRec.state = some (some UState.add_expense) := by
  decide

/-- C7: after `process_expense` rejects a malformed input the stored
state still says awaiting expense input, but the one-shot continuation
has been consumed and is not re-registered, so the next message — here
a well-formed retry — is dispatched to no handler at all: nothing is
appended and no reply is sent. -/
theorem error_consumes_continuation_retry_dropped :
    (handle_message stuckCfg "42" "lunch".toList ['d']).2 =
      [Msg.formatError] ∧
    ((handle_message stuckCfg "42" "lunch".toList ['d']).1.users "42").map
      UserRec.state = some (some UState.add_expense) ∧
    (handle_message stuckCfg "42" "lunch".toList ['d']).1.pending "42" =
      none ∧
    (handle_message
      (handle_message stuckCfg "42" "lunch".toList ['d']).1
      "42" "Coffee, 150".toList ['d']).2 = [] ∧
    ((handle_message
      (handle_message stuckCfg "42" "lunch".toList ['d']).1
      "42" "Coffee, 150".toList ['d']).1.users "42").map
      (fun r => r.expenses.length) = some 0 := by
  decide

/-- The configuration right after the set-daily-budget button was
pressed: state awaiting the limit and `process_daily_limit` registered
for the next message. Chat id 9, fresh record with limit 0. -/
def limitCfg : Config :=
  ⟨fun k => if k = "9" then some ⟨[], 0, some UState.set_daily_limit⟩ else none,
   fun k => if k = "9" then some NextStep.limit else none⟩

/-- C8 counterexample: `process_daily_limit` performs no sign check, so
the single input `-5` in the awaiting-limit state drives the stored
daily limit to a negative number. -/
theorem negative_limit_reachable :
    ((handle_message limitCfg "9" "-5".toList ['d']).1.users "9").map
      UserRec.daily_limit = some (-5) ∧ ((-5 : ℚ) < 0) := by
  decide

/-- C8 amended: the daily limit stores exactly the number the
awaiting-limit input parses to — including negative values, which the
code accepts unchecked — and the stored state returns to idle. -/
theorem limit_stores_parsed_value (cfg : Config) (uid : String)
    (text today : Str) (u : UserRec) (q : ℚ)
    (hu : cfg.users uid = some u)
    (hstate : u.state = some UState.set_daily_limit)
    (hpend : cfg.pending uid = some NextStep.limit)
    (hq : parseFloat (strip text) = some q) :
    (handle_message cfg uid text today).1.users uid =
      some ⟨u.expenses, q, none⟩ ∧
    (handle_message cfg uid text today).2 = [Msg.limitSet q] := by
  simp [handle_message, hpend, process_daily_limit, hq, hu,
    set_user_state, storeSet]

/-! ## Concrete configurations used by the witnesses -/

/-- A record with one logged expense, daily limit 100, awaiting expense
input. -/
def wUser : UserRec :=
  ⟨[⟨"Coffee".toList, 150, "2026-10-12".toList⟩], 100,
   some UState.add_expense⟩

/-- A one-user store holding `wUser` under chat id 7. -/
def wStore : Store := fun k => if k = "7" then some wUser else none

/-- `wStore` with `process_expense` registered for chat id 7. -/
def wCfgExp : Config :=
  ⟨wStore, fun k => if k = "7" then some NextStep.expense else none⟩

/-- A record with two logged expenses, awaiting a delete index. -/
def wUserDel : UserRec :=
  ⟨[⟨"Coffee".toList, 150, "2026-10-12".toList⟩,
    ⟨"Lunch".toList, 60, "2026-10-12".toList⟩], 0,
   some UState.delete_expense⟩

/-- A one-user configuration with `process_delete_expense` registered
for chat id 5. -/
def wCfgDel : Config :=
  ⟨fun k => if k = "5" then some wUserDel else none,
   fun k => if k = "5" then some NextStep.delete else none⟩

/-- An idle one-user configuration with no pending continuation. -/
def idleCfg : Config :=
  ⟨fun k => if k = "3" then some ⟨[], 0, none⟩ else none, fun _ => none⟩

/-! ## Witnesses -/

/-- Witness for C1 at the input `Lunch, 60`. -/
theorem await_expense_valid_input_appends_witness :
    wCfgExp.users "7" = some wUser ∧
    wUser.state = some UState.add_expense ∧
    wCfgExp.pending "7" = some NextStep.expense ∧
    splitOnComma "Lunch, 60".toList = ["Lunch".toList, " 60".toList] ∧
    parseFloat (strip " 60".toList) = some 60 ∧
    ((handle_message wCfgExp "7" "Lunch, 60".toList
        "2026-10-12".toList).1.users "7" =
      some ⟨wUser.expenses ++
        [⟨strip "Lunch".toList, 60, "2026-10-12".toList⟩],
        wUser.daily_limit, none⟩ ∧
    ((handle_message wCfgExp "7" "Lunch, 60".toList
        "2026-10-12".toList).1.users "7").map
      (fun r => r.expenses.length) = some (wUser.expenses.length + 1)) :=
  ⟨by decide, by decide, by decide, by decide, by decide,
   await_expense_valid_input_appends wCfgExp "7" "Lunch, 60".toList
     "2026-10-12".toList wUser "Lunch".toList " 60".toList 60
     (by decide) (by decide) (by decide) (by decide) (by decide)⟩

/-- Witness for C2 at the qualifying insertion `Lunch, 60` against
limit 100 with 150 already spent today. -/
theorem warning_exactly_on_qualifying_insertion_witness :
    wCfgExp.users "7" = some wUser ∧
    wCfgExp.pending "7" = some NextStep.expense ∧
    parseExpenseInput "Lunch, 60".toList = some ("Lunch".toList, 60) ∧
    (handle_message wCfgExp "7" "Lunch, 60".toList
        "2026-10-12".toList).2.filter isWarning =
      (if 0 < wUser.daily_limit ∧ wUser.daily_limit <
          dailySum (wUser.expenses ++
            [⟨"Lunch".toList, 60, "2026-10-12".toList⟩])
            "2026-10-12".toList
       then [Msg.warning wUser.daily_limit
              (dailySum (wUser.expenses ++
                [⟨"Lunch".toList, 60, "2026-10-12".toList⟩])
                "2026-10-12".toList)]
       else []) :=
  ⟨by decide, by decide, by decide,
   (warning_exactly_on_qualifying_insertion wCfgExp "7"
       "Lunch, 60".toList "2026-10-12".toList).1
     wUser "Lunch".toList 60 (by decide) (by decide) (by decide)⟩

/-- Witness for C3 deleting index 1 out of two expenses. -/
theorem await_delete_valid_index_removes_witness :
    wCfgDel.users "5" = some wUserDel ∧
    wUserDel.state = some UState.delete_expense ∧
    wCfgDel.pending "5" = some NextStep.delete ∧
    parseInt (strip "1".toList) = some 1 ∧
    (1 : ℤ) ≤ 1 ∧ (1 : ℤ) ≤ (wUserDel.expenses.length : ℤ) ∧
    (∃ d, wUserDel.expenses[(1 : ℤ).toNat - 1]? = some d ∧
      (handle_message wCfgDel "5" "1".toList ['d']).1.users "5" =
        some ⟨wUserDel.expenses.take ((1 : ℤ).toNat - 1) ++
              wUserDel.expenses.drop (1 : ℤ).toNat,
              wUserDel.daily_limit, none⟩ ∧
      (handle_message wCfgDel "5" "1".toList ['d']).2 =
        [Msg.deleted d.category d.amount] ∧
      ((handle_message wCfgDel "5" "1".toList ['d']).1.users "5").map
        (fun r => r.expenses.length) =
        some (wUserDel.expenses.length - 1)) :=
  ⟨by decide, by decide, by decide, by decide, by decide, by decide,
   await_delete_valid_index_removes wCfgDel "5" "1".toList ['d']
     wUserDel 1 (by decide) (by decide) (by decide) (by decide)
     (by decide) (by decide)⟩

/-- Witness for C4 at the comma-free input `lunch`. -/
theorem await_expense_malformed_unchanged_witness :
    wCfgExp.users "7" = some wUser ∧
    wUser.state = some UState.add_expense ∧
    wCfgExp.pending "7" = some NextStep.expense ∧
    parseExpenseInputSpec "lunch".toList = none ∧
    ((handle_message wCfgExp "7" "lunch".toList
        "2026-10-12".toList).1.users = wCfgExp.users ∧
    (handle_message wCfgExp "7" "lunch".toList
        "2026-10-12".toList).2 = [Msg.formatError] ∧
    ((handle_message wCfgExp "7" "lunch".toList
        "2026-10-12".toList).1.users "7").map UserRec.state =
      some (some UState.add_expense)) :=
  ⟨by decide, by decide, by decide, by decide,
   await_expense_malformed_unchanged wCfgExp "7" "lunch".toList
     "2026-10-12".toList wUser (by decide) (by decide) (by decide)
     (by decide)⟩

/-- Witness for C5 at the out-of-range index 9 of a two-expense list.
-/
theorem await_delete_bad_input_unchanged_witness :
    wCfgDel.users "5" = some wUserDel ∧
    wUserDel.state = some UState.delete_expense ∧
    wCfgDel.pending "5" = some NextStep.delete ∧
    parseInt (strip "9".toList) = some 9 ∧
    ((9 : ℤ) < 1 ∨ (wUserDel.expenses.length : ℤ) < 9) ∧
    ((handle_message wCfgDel "5" "9".toList ['d']).1.users =
      wCfgDel.users ∧
    (handle_message wCfgDel "5" "9".toList ['d']).2 =
      [Msg.invalidNumber] ∧
    ((handle_message wCfgDel "5" "9".toList ['d']).1.users "5").map
      UserRec.state = some (some UState.delete_expense)) :=
  ⟨by decide, by decide, by decide, by decide, by decide,
   (await_delete_bad_input_unchanged wCfgDel "5" "9".toList ['d']
       wUserDel (by decide) (by decide) (by decide)).2
     9 (by decide) (by decide)⟩

/-- Witness for the amended C6 at an idle configuration. -/
theorem start_welcomes_without_pending_witness :
    idleCfg.pending "3" = none ∧
    ((handle_message idleCfg "3" startCmd ['d']).2 = [Msg.welcome] ∧
    ((handle_message idleCfg "3" startCmd ['d']).1.users "3").map
      UserRec.state = some none ∧
    (handle_message idleCfg "3" startCmd ['d']).1.pending =
      idleCfg.pending) :=
  ⟨rfl, start_welcomes_without_pending idleCfg "3" ['d'] rfl⟩

/-- Witness for the amended C8 at the input `-5`. -/
theorem limit_stores_parsed_value_witness :
    limitCfg.users "9" = some ⟨[], 0, some UState.set_daily_limit⟩ ∧
    (⟨[], 0, some UState.set_daily_limit⟩ : UserRec).state =
      some UState.set_daily_limit ∧
    limitCfg.pending "9" = some NextStep.limit ∧
    parseFloat (strip "-5".toList) = some (-5) ∧
    ((handle_message limitCfg "9" "-5".toList ['d']).1.users "9" =
      some ⟨[], -5, none⟩ ∧
    (handle_message limitCfg "9" "-5".toList ['d']).2 =
      [Msg.limitSet (-5)]) :=
  ⟨by decide, by decide, by decide, by decide,
   limit_stores_parsed_value limitCfg "9" "-5".toList ['d']
     ⟨[], 0, some UState.set_daily_limit⟩ (-5)
     (by decide) (by decide) (by decide) (by decide)⟩

/-- Witness for C10: updating the state of user 7 leaves user x alone
and keeps the expenses and limit of user 7. -/
theorem set_user_state_frame_witness :
    (("x" : String) ≠ "7") ∧
    set_user_state wStore "7" none "x" = wStore "x" ∧
    wStore "7" = some wUser ∧
    set_user_state wStore "7" none "7" =
      some ⟨wUser.expenses, wUser.daily_limit, none⟩ :=
  ⟨by decide,
   (set_user_state_frame wStore "7" none).1 "x" (by decide),
   by decide,
   (set_user_state_frame wStore "7" none).2.1 wUser (by decide)⟩
